import Mathlib

/-!
Verification of the core of the todogotchi repository: the experience /
leveling transformation of `updatePet` (server/controllers/folderController.js)
and the cascading referential-integrity operations over the
User → Folder → Note → Task ownership graph
(folderController.js, taskController, server/models/Task.js).

JavaScript numbers are idealised as exact rationals (`ℚ`).  The factor
`Math.pow(level, 1.5)` of the experience curve is irrational for most levels,
so it cannot be a function into `ℚ`; it is therefore abstracted as a parameter
`pow : ℕ → ℚ` of the engine.  Every theorem assumes of `pow` only facts that
are true of `l ↦ l ^ 1.5` (such as `pow 1 = 1` and `1 ≤ pow l` for `1 ≤ l`),
and every concrete run below evaluates `pow` only at points where the chosen
stand-in agrees with `l ^ 1.5` in the way the run needs.
-/

namespace Todogotchi

/-! ### Leveling engine — `updatePet`, folderController.js lines 299–326 -/

/-- `const BASE_EXP = 100` (updatePet). -/
def BASE_EXP : ℚ := 100

/-- `const EXPONENT = 1.5` (updatePet).  Recorded for reference; the factor
`Math.pow(level, EXPONENT)` itself is the abstract parameter `pow` below. -/
def EXPONENT : ℚ := 3 / 2

/-- `calculateRequiredExp = (level) => BASE_EXP * Math.pow(level, EXPONENT)`,
with `Math.pow(level, 1.5)` abstracted as `pow`. -/
def calculateRequiredExp (pow : ℕ → ℚ) (level : ℕ) : ℚ :=
  BASE_EXP * pow level

/-- Iteration budget for the level-up while loop.  Each iteration subtracts
`calculateRequiredExp pow level ≥ BASE_EXP = 100` from the running total, so
`total.num.toNat + 1` iterations can never be exhausted (`lt_upFuel` and
`levelUp_spec` below); with unexhausted fuel the function is exactly the
source's `while` loop. -/
def upFuel (total : ℚ) : ℕ := total.num.toNat + 1

/-- The level-up loop of updatePet:
`while (totalExp >= maxExp) { totalExp -= maxExp; newLevel += 1; maxExp = calculateRequiredExp(newLevel); }`. -/
def levelUp (pow : ℕ → ℚ) : ℕ → ℕ → ℚ → ℕ × ℚ
  | 0, level, total => (level, total)
  | fuel + 1, level, total =>
    if calculateRequiredExp pow level ≤ total then
      levelUp pow fuel (level + 1) (total - calculateRequiredExp pow level)
    else (level, total)

/-- The level-down loop of updatePet:
`while (totalExp < 0 && newLevel > 1) { newLevel -= 1; maxExp = calculateRequiredExp(newLevel); totalExp += maxExp; }`. -/
def levelDown (pow : ℕ → ℚ) : ℕ → ℚ → ℕ × ℚ
  | 0, total => (0, total)
  | 1, total => (1, total)
  | level + 2, total =>
    if total < 0 then
      levelDown pow (level + 1) (total + calculateRequiredExp pow (level + 1))
    else (level + 2, total)

/-- The whole points branch of updatePet (lines 299–326): starting from
`totalExp = pet.points + updates.points`, run the level-up loop, then the
level-down loop, and store the result into `(pet.level, pet.points)`.
Note the source has no clamp of a negative total at level 1. -/
def applyPoints (pow : ℕ → ℚ) (level : ℕ) (points delta : ℚ) : ℕ × ℚ :=
  let total := points + delta
  let r := levelUp pow (upFuel total) level total
  levelDown pow r.1 r.2

/-- Total experience absorbed by the levels strictly below `level` (counting
from level 1): the quantity that the two loops conserve together with the
running total. -/
def cumExp (pow : ℕ → ℚ) : ℕ → ℚ
  | 0 => 0
  | 1 => 0
  | level + 2 => cumExp pow (level + 1) + calculateRequiredExp pow (level + 1)

/-- A computable stand-in for `l ↦ l ^ 1.5`, used only to instantiate the
abstract curve parameter in concrete runs.  It agrees with `l ^ 1.5` at
`l = 0` and `l = 1`, and like `l ^ 1.5` it satisfies `1 ≤ powStandIn l` for
`1 ≤ l`; no concrete run below depends on its values beyond that. -/
def powStandIn : ℕ → ℚ := fun l => (l : ℚ)

lemma powStandIn_one_le : ∀ k, 1 ≤ k → 1 ≤ powStandIn k := by
  intro k hk
  unfold powStandIn
  exact_mod_cast hk

lemma lt_upFuel (t : ℚ) : t < BASE_EXP * (upFuel t : ℚ) := by
  rcases le_or_lt 0 t with h | h
  · have hnum : (0 : ℤ) ≤ t.num := Rat.num_nonneg.mpr h
    have h1 : t ≤ (t.num : ℚ) := by
      conv_lhs => rw [← Rat.num_div_den t]
      have hden : (1 : ℚ) ≤ (t.den : ℚ) := by
        exact_mod_cast t.pos
      exact div_le_self (by exact_mod_cast hnum) hden
    have h2 : ((t.num.toNat : ℤ) : ℚ) = (t.num : ℚ) := by
      exact_mod_cast Int.toNat_of_nonneg hnum
    have h3 : t ≤ (t.num.toNat : ℚ) := by
      push_cast at h2
      linarith [h1, h2.ge]
    have h4 : (0 : ℚ) ≤ (t.num.toNat : ℚ) := by positivity
    have h5 : ((upFuel t : ℕ) : ℚ) = (t.num.toNat : ℚ) + 1 := by
      unfold upFuel
      push_cast
      ring
    rw [h5]
    unfold BASE_EXP
    nlinarith
  · have h0 : (0 : ℚ) ≤ BASE_EXP * (upFuel t : ℚ) := by
      unfold BASE_EXP
      positivity
    linarith

lemma cumExp_succ (pow : ℕ → ℚ) (level : ℕ) (hl : 1 ≤ level) :
    cumExp pow (level + 1) = cumExp pow level + calculateRequiredExp pow level := by
  cases level with
  | zero => omega
  | succ l => rfl

lemma cumExp_nonneg (pow : ℕ → ℚ) (hpow : ∀ k, 1 ≤ k → 1 ≤ pow k) :
    ∀ level, 0 ≤ cumExp pow level := by
  intro level
  induction level with
  | zero => simp [cumExp]
  | succ l ih =>
    cases l with
    | zero => simp [cumExp]
    | succ m =>
      have hm : (1 : ℚ) ≤ pow (m + 1) := hpow (m + 1) (by omega)
      have : (0 : ℚ) ≤ calculateRequiredExp pow (m + 1) := by
        unfold calculateRequiredExp BASE_EXP
        nlinarith
      calc (0 : ℚ) ≤ cumExp pow (m + 1) := ih
        _ ≤ cumExp pow (m + 1) + calculateRequiredExp pow (m + 1) := by linarith
        _ = cumExp pow (m + 2) := rfl

lemma cumExp_gap (pow : ℕ → ℚ) (hpow : ∀ k, 1 ≤ k → 1 ≤ pow k) :
    ∀ b a, 1 ≤ a → a < b →
      cumExp pow a + calculateRequiredExp pow a ≤ cumExp pow b := by
  intro b
  induction b with
  | zero => omega
  | succ m ih =>
    intro a ha hab
    rcases Nat.lt_succ_iff_lt_or_eq.mp hab with h | h
    · have hm1 : 1 ≤ m := by omega
      have h1 := ih a ha h
      have hm : (1 : ℚ) ≤ pow m := hpow m hm1
      have h2 : (0 : ℚ) ≤ calculateRequiredExp pow m := by
        unfold calculateRequiredExp BASE_EXP
        nlinarith
      rw [cumExp_succ pow m hm1]
      linarith
    · subst h
      rw [cumExp_succ pow a ha]

lemma levelUp_spec (pow : ℕ → ℚ) (hpow : ∀ k, 1 ≤ k → 1 ≤ pow k)
    (fuel : ℕ) :
    ∀ level : ℕ, ∀ total : ℚ, ∀ l' : ℕ, ∀ t' : ℚ,
      1 ≤ level → total < BASE_EXP * (fuel : ℚ) →
      levelUp pow fuel level total = (l', t') →
      1 ≤ l' ∧ t' < calculateRequiredExp pow l' ∧
        cumExp pow l' + t' = cumExp pow level + total ∧
        (0 ≤ total → 0 ≤ t') ∧ (total < 0 → l' = level ∧ t' = total) := by
  induction fuel with
  | zero =>
    intro level total l' t' hl hfuel h
    simp only [levelUp, Prod.mk.injEq] at h
    obtain ⟨rfl, rfl⟩ := h
    have hp : (1 : ℚ) ≤ pow level := hpow level hl
    have hreq : (100 : ℚ) ≤ calculateRequiredExp pow level := by
      unfold calculateRequiredExp BASE_EXP
      nlinarith
    have htneg : total < 0 := by
      unfold BASE_EXP at hfuel
      push_cast at hfuel
      linarith
    refine ⟨hl, by linarith, by ring, ?_, ?_⟩
    · intro h0
      linarith
    · intro _
      exact ⟨rfl, rfl⟩
  | succ fuel ih =>
    intro level total l' t' hl hfuel h
    rw [levelUp] at h
    split_ifs at h with hc
    · have hp : (1 : ℚ) ≤ pow level := hpow level hl
      have hreq : (100 : ℚ) ≤ calculateRequiredExp pow level := by
        unfold calculateRequiredExp BASE_EXP
        nlinarith
      have hfuel' : total - calculateRequiredExp pow level < BASE_EXP * (fuel : ℚ) := by
        unfold BASE_EXP at hfuel ⊢
        push_cast at hfuel
        linarith
      have := ih (level + 1) (total - calculateRequiredExp pow level) l' t'
        (by omega) hfuel' h
      obtain ⟨c1, c2, c3, c4, _⟩ := this
      refine ⟨c1, c2, ?_, ?_, ?_⟩
      · rw [c3, cumExp_succ pow level hl]
        ring
      · intro _
        exact c4 (by linarith)
      · intro hneg
        linarith
    · simp only [Prod.mk.injEq] at h
      obtain ⟨rfl, rfl⟩ := h
      refine ⟨hl, lt_of_not_le hc, by ring, fun h0 => h0, fun _ => ⟨rfl, rfl⟩⟩

lemma levelDown_spec (pow : ℕ → ℚ) (level : ℕ) :
    ∀ total : ℚ, ∀ l' : ℕ, ∀ t' : ℚ,
      1 ≤ level → levelDown pow level total = (l', t') →
      1 ≤ l' ∧ cumExp pow l' + t' = cumExp pow level + total ∧
        (0 ≤ t' ∨ l' = 1) ∧
        (0 ≤ total → l' = level ∧ t' = total) ∧
        (total < calculateRequiredExp pow level →
          t' < calculateRequiredExp pow l') := by
  induction level with
  | zero => omega
  | succ n ih =>
    intro total l' t' _ h
    cases n with
    | zero =>
      simp only [levelDown, Prod.mk.injEq] at h
      obtain ⟨rfl, rfl⟩ := h
      exact ⟨le_refl 1, by ring, Or.inr rfl, fun _ => ⟨rfl, rfl⟩, fun hlt => hlt⟩
    | succ m =>
      rw [levelDown] at h
      split_ifs at h with hc
      · have := ih (total + calculateRequiredExp pow (m + 1)) l' t' (by omega) h
        obtain ⟨c1, c2, c3, _, c5⟩ := this
        refine ⟨c1, ?_, c3, ?_, ?_⟩
        · rw [c2]
          show cumExp pow (m + 1) + (total + calculateRequiredExp pow (m + 1)) =
            cumExp pow (m + 1) + calculateRequiredExp pow (m + 1) + total
          ring
        · intro h0
          linarith
        · intro _
          exact c5 (by linarith)
      · simp only [Prod.mk.injEq] at h
        obtain ⟨rfl, rfl⟩ := h
        push_neg at hc
        refine ⟨by omega, by ring, Or.inl hc, fun _ => ⟨rfl, rfl⟩, fun hlt => hlt⟩

lemma applyPoints_spec (pow : ℕ → ℚ) (hpow : ∀ k, 1 ≤ k → 1 ≤ pow k)
    (level : ℕ) (points delta : ℚ) (l' : ℕ) (t' : ℚ)
    (hl : 1 ≤ level) (h : applyPoints pow level points delta = (l', t')) :
    1 ≤ l' ∧ t' < calculateRequiredExp pow l' ∧ (0 ≤ t' ∨ l' = 1) ∧
      cumExp pow l' + t' = cumExp pow level + points + delta := by
  rcases hLU : levelUp pow (upFuel (points + delta)) level (points + delta)
    with ⟨l1, t1⟩
  have hfuel := lt_upFuel (points + delta)
  have S1 := levelUp_spec pow hpow (upFuel (points + delta)) level
    (points + delta) l1 t1 hl hfuel hLU
  obtain ⟨a1, a2, a3, _, _⟩ := S1
  have hLD : levelDown pow l1 t1 = (l', t') := by
    simp only [applyPoints, hLU] at h
    exact h
  have S2 := levelDown_spec pow l1 t1 l' t' a1 hLD
  obtain ⟨b1, b2, b3, _, b5⟩ := S2
  refine ⟨b1, b5 a2, b3, ?_⟩
  rw [b2, a3]
  ring

lemma canonical_unique (pow : ℕ → ℚ) (hpow : ∀ k, 1 ≤ k → 1 ≤ pow k)
    (l1 l2 : ℕ) (t1 t2 : ℚ)
    (h1 : 1 ≤ l1) (h2 : 1 ≤ l2)
    (ht1 : 0 ≤ t1) (ht1' : t1 < calculateRequiredExp pow l1)
    (ht2 : 0 ≤ t2) (ht2' : t2 < calculateRequiredExp pow l2)
    (hsum : cumExp pow l1 + t1 = cumExp pow l2 + t2) :
    l1 = l2 ∧ t1 = t2 := by
  rcases lt_trichotomy l1 l2 with h | h | h
  · exfalso
    have := cumExp_gap pow hpow l2 l1 h1 h
    linarith
  · subst h
    exact ⟨rfl, by linarith⟩
  · exfalso
    have := cumExp_gap pow hpow l1 l2 h2 h
    linarith

lemma levelUp_stop (pow : ℕ → ℚ) (fuel level : ℕ) (total : ℚ)
    (h : total < calculateRequiredExp pow level) :
    levelUp pow fuel level total = (level, total) := by
  cases fuel with
  | zero => rfl
  | succ n => rw [levelUp, if_neg (not_le.mpr h)]

lemma levelUp_step (pow : ℕ → ℚ) (fuel level : ℕ) (total : ℚ)
    (h : calculateRequiredExp pow level ≤ total) :
    levelUp pow (fuel + 1) level total =
      levelUp pow fuel (level + 1) (total - calculateRequiredExp pow level) := by
  rw [levelUp, if_pos h]

lemma levelDown_stay (pow : ℕ → ℚ) (level : ℕ) (total : ℚ)
    (hl : 1 ≤ level) (h : 0 ≤ total) :
    levelDown pow level total = (level, total) := by
  cases level with
  | zero => omega
  | succ n =>
    cases n with
    | zero => rfl
    | succ m => rw [levelDown, if_neg (not_lt.mpr h)]

/-- A run of the whole points branch in which neither loop iterates. -/
lemma applyPoints_within (pow : ℕ → ℚ) (l : ℕ) (p d : ℚ) (hl : 1 ≤ l)
    (h0 : 0 ≤ p + d) (hlt : p + d < calculateRequiredExp pow l) :
    applyPoints pow l p d = (l, p + d) := by
  simp only [applyPoints, levelUp_stop pow (upFuel (p + d)) l (p + d) hlt]
  exact levelDown_stay pow l (p + d) hl h0

/-- A run at level 1 whose total goes negative: both loops fall through and the
negative total is stored as is — the source has no clamp to 0. -/
lemma applyPoints_neg_at_one (pow : ℕ → ℚ) (p d : ℚ)
    (hreq : 0 < calculateRequiredExp pow 1) (hneg : p + d < 0) :
    applyPoints pow 1 p d = (1, p + d) := by
  simp only [applyPoints,
    levelUp_stop pow (upFuel (p + d)) 1 (p + d) (by linarith)]
  rfl

/-- A run in which the level-up loop iterates exactly once. -/
lemma applyPoints_one_up (pow : ℕ → ℚ) (l : ℕ) (p d : ℚ)
    (h1 : calculateRequiredExp pow l ≤ p + d)
    (h2 : p + d - calculateRequiredExp pow l < calculateRequiredExp pow (l + 1)) :
    applyPoints pow l p d = (l + 1, p + d - calculateRequiredExp pow l) := by
  obtain ⟨n, hn⟩ : ∃ n, upFuel (p + d) = n + 1 := ⟨(p + d).num.toNat, rfl⟩
  simp only [applyPoints, hn, levelUp_step pow n l (p + d) h1,
    levelUp_stop pow n (l + 1) (p + d - calculateRequiredExp pow l) h2]
  exact levelDown_stay pow (l + 1) (p + d - calculateRequiredExp pow l)
    (by omega) (by linarith)

/-! ### The pet document and `updatePet`'s surrounding field spread -/

/-- The pet fields `updatePet` touches.  The source's `type` field is spelled
`ptype` here.  -/
structure PetDoc where
  name : String
  ptype : String
  level : ℕ
  points : ℚ
  deriving DecidableEq

/-- A `req.body` for updatePet: each field is present (`some`) or absent. -/
structure PetUpdate where
  name : Option String
  ptype : Option String
  level : Option ℕ
  points : Option ℚ
  deriving DecidableEq

/-- `updatePet` (folderController.js lines 282–343) after the pet has been
fetched: if `updates.points` is present, run the leveling transformation
(lines 299–326) and store its result into `pet.level` / `pet.points`; then the
loop of lines 329–333 copies every key of the payload other than `"points"`
verbatim onto the pet — in particular a `level` key overrides the level the
transformation just computed, and the `"points"` key itself is skipped. -/
def updatePet (pow : ℕ → ℚ) (pet : PetDoc) (u : PetUpdate) : PetDoc :=
  let pet1 := match u.points with
    | none => pet
    | some d =>
      let r := applyPoints pow pet.level pet.points d
      { pet with level := r.1, points := r.2 }
  { pet1 with
    name := u.name.getD pet1.name
    ptype := u.ptype.getD pet1.ptype
    level := u.level.getD pet1.level }

/-! ### Claim C1 — level floor -/

/-- C1 (counterexample).  The claim says `applyPoints (1, p, delta) = (1, 0)`
for `delta ≤ -(p+1)`; at `p = 0`, `delta = -1` the code returns `(1, -1)`,
not `(1, 0)`: the deficit is kept as negative experience (the run only
evaluates the curve at level 1, where the stand-in agrees with `l ^ 1.5`). -/
theorem c1_level_floor_counterexample :
    applyPoints powStandIn 1 0 (-1) = (1, -1) ∧
      ((1, -1) : ℕ × ℚ) ≠ ((1, 0) : ℕ × ℚ) := by
  constructor
  · have h := applyPoints_neg_at_one powStandIn 0 (-1)
      (by norm_num [calculateRequiredExp, powStandIn, BASE_EXP]) (by norm_num)
    simpa using h
  · intro h
    rw [Prod.mk.injEq] at h
    norm_num at h

/-- C1 (amended).  For level 1, points `p ≥ 0` and `delta ≤ -(p+1)` the
transformation returns `(1, p + delta)` — the deficit IS carried as negative
experience, because the clamp step the spec describes does not exist in the
source. -/
theorem c1_level_floor (pow : ℕ → ℚ) (hpow1 : pow 1 = 1) (p delta : ℚ)
    (_hp : 0 ≤ p) (hd : delta ≤ -(p + 1)) :
    applyPoints pow 1 p delta = (1, p + delta) := by
  apply applyPoints_neg_at_one pow p delta
  · unfold calculateRequiredExp BASE_EXP
    rw [hpow1]
    norm_num
  · linarith

/-- C1 (witness): the amended theorem at `p = 2`, `delta = -4`. -/
theorem c1_level_floor_witness :
    (0 : ℚ) ≤ 2 ∧ (-4 : ℚ) ≤ -(2 + 1) ∧
      applyPoints powStandIn 1 2 (-4) = (1, -2) := by
  refine ⟨by norm_num, by norm_num, ?_⟩
  have h := c1_level_floor powStandIn (by norm_num [powStandIn]) 2 (-4)
    (by norm_num) (by norm_num)
  norm_num at h
  exact h

/-! ### Claim C7 — zero-delta idempotence -/

/-- C7 (counterexample).  The claim quantifies over all `l ≥ 1`, `p ≥ 0`; at
the state `(1, 100)` (which satisfies those bounds but not the invariant
`p < requiredExperience(l)`), a zero delta levels the pet up:
`applyPoints (1, 100, 0) = (2, 0) ≠ (1, 100)`. -/
theorem c7_zero_delta_counterexample :
    applyPoints powStandIn 1 100 0 = (2, 0) ∧
      ((2, 0) : ℕ × ℚ) ≠ ((1, 100) : ℕ × ℚ) := by
  constructor
  · have h := applyPoints_one_up powStandIn 1 100 0
      (by norm_num [calculateRequiredExp, powStandIn, BASE_EXP])
      (by norm_num [calculateRequiredExp, powStandIn, BASE_EXP])
    rw [h]
    norm_num [calculateRequiredExp, powStandIn, BASE_EXP]
  · intro h
    rw [Prod.mk.injEq] at h
    exact absurd h.1 (by norm_num)

/-- C7 (amended).  Zero-delta idempotence holds on states that also satisfy
the documented invariant `p < requiredExperience(l)` (the claim's gloss of
"valid" as merely `l ≥ 1, p ≥ 0` admits states the loops renormalise). -/
theorem c7_zero_delta (pow : ℕ → ℚ) (l : ℕ) (p : ℚ) (hl : 1 ≤ l)
    (hp : 0 ≤ p) (hpr : p < calculateRequiredExp pow l) :
    applyPoints pow l p 0 = (l, p) := by
  have h := applyPoints_within pow l p 0 hl (by linarith) (by linarith)
  simpa using h

/-- C7 (witness): the amended theorem at `(l, p) = (1, 50)`. -/
theorem c7_zero_delta_witness :
    (1 ≤ 1 ∧ (0 : ℚ) ≤ 50 ∧ (50 : ℚ) < calculateRequiredExp powStandIn 1) ∧
      applyPoints powStandIn 1 50 0 = (1, 50) := by
  have hreq : (50 : ℚ) < calculateRequiredExp powStandIn 1 := by
    norm_num [calculateRequiredExp, powStandIn, BASE_EXP]
  exact ⟨⟨le_rfl, by norm_num, hreq⟩,
    c7_zero_delta powStandIn 1 50 le_rfl (by norm_num) hreq⟩

/-! ### Claim C2 — pet state invariant -/

/-- C2 (counterexample).  A points-only update of `-1` on a level-1 pet with
0 points stores `points = -1`: the claimed lower bound `points ≥ 0` fails,
because the source has no floor clamp. -/
theorem c2_pet_invariant_counterexample :
    ¬ (0 ≤ (updatePet powStandIn ⟨"pet", "dog", 1, 0⟩
        ⟨none, none, none, some (-1)⟩).points) := by
  have h : applyPoints powStandIn 1 0 (-1) = (1, -1) := by
    have h0 := applyPoints_neg_at_one powStandIn 0 (-1)
      (by norm_num [calculateRequiredExp, powStandIn, BASE_EXP]) (by norm_num)
    simpa using h0
  simp only [updatePet, h]
  norm_num

/-- C2 (amended).  After an `updatePet` whose payload holds exactly a points
delta, on a pet with `level ≥ 1`: the new level is `≥ 1`, the new points lie
strictly below `requiredExperience(level)`, and they are nonnegative unless
the pet ends at level 1 (where the missing clamp lets them go negative). -/
theorem c2_pet_invariant (pow : ℕ → ℚ) (hpow : ∀ k, 1 ≤ k → 1 ≤ pow k)
    (pet : PetDoc) (d : ℚ) (hl : 1 ≤ pet.level) :
    1 ≤ (updatePet pow pet ⟨none, none, none, some d⟩).level ∧
      (updatePet pow pet ⟨none, none, none, some d⟩).points <
        calculateRequiredExp pow
          (updatePet pow pet ⟨none, none, none, some d⟩).level ∧
      (0 ≤ (updatePet pow pet ⟨none, none, none, some d⟩).points ∨
        (updatePet pow pet ⟨none, none, none, some d⟩).level = 1) := by
  rcases hap : applyPoints pow pet.level pet.points d with ⟨l', t'⟩
  have S := applyPoints_spec pow hpow pet.level pet.points d l' t' hl hap
  have hres : updatePet pow pet ⟨none, none, none, some d⟩ =
      { pet with level := l', points := t' } := by
    simp [updatePet, hap]
  rw [hres]
  exact ⟨S.1, S.2.1, S.2.2.1⟩

/-- C2 (witness): the amended theorem on a level-1 pet with 50 points and a
delta of 20 (the run stays below `requiredExperience(1) = 100`). -/
theorem c2_pet_invariant_witness :
    1 ≤ (updatePet powStandIn ⟨"pet", "dog", 1, 50⟩
        ⟨none, none, none, some 20⟩).level ∧
      (updatePet powStandIn ⟨"pet", "dog", 1, 50⟩
          ⟨none, none, none, some 20⟩).points <
        calculateRequiredExp powStandIn
          (updatePet powStandIn ⟨"pet", "dog", 1, 50⟩
            ⟨none, none, none, some 20⟩).level ∧
      (0 ≤ (updatePet powStandIn ⟨"pet", "dog", 1, 50⟩
          ⟨none, none, none, some 20⟩).points ∨
        (updatePet powStandIn ⟨"pet", "dog", 1, 50⟩
          ⟨none, none, none, some 20⟩).level = 1) :=
  c2_pet_invariant powStandIn powStandIn_one_le ⟨"pet", "dog", 1, 50⟩ 20 le_rfl

/-! ### Claim C8 — round-trip -/

/-- C8 (confirmed).  From a state satisfying the documented invariant
(`l ≥ 1`, `0 ≤ p < requiredExperience(l)`), applying `d` and then `-d`
returns to `(l, p)`, under the claim's proviso that no floor-clamping was
needed (the intermediate points are nonnegative; the source in fact never
clamps, so nothing is discarded).  The proof: both loops conserve
`cumExp level + total`, and the end state of a run is the unique
representative of that conserved value with `level ≥ 1`,
`0 ≤ points < requiredExperience(level)`. -/
theorem c8_round_trip (pow : ℕ → ℚ) (hpow : ∀ k, 1 ≤ k → 1 ≤ pow k)
    (l : ℕ) (p d : ℚ) (hl : 1 ≤ l) (hp : 0 ≤ p)
    (hpr : p < calculateRequiredExp pow l)
    (_hnoclamp : 0 ≤ (applyPoints pow l p d).2) :
    applyPoints pow (applyPoints pow l p d).1 (applyPoints pow l p d).2 (-d) =
      (l, p) := by
  rcases h1 : applyPoints pow l p d with ⟨l1, t1⟩
  have S1 := applyPoints_spec pow hpow l p d l1 t1 hl h1
  rcases h2 : applyPoints pow l1 t1 (-d) with ⟨l2, t2⟩
  have S2 := applyPoints_spec pow hpow l1 t1 (-d) l2 t2 S1.1 h2
  have hsum : cumExp pow l2 + t2 = cumExp pow l + p := by
    have e1 := S1.2.2.2
    have e2 := S2.2.2.2
    linarith
  have ht2 : 0 ≤ t2 := by
    rcases S2.2.2.1 with h | h
    · exact h
    · have hc := cumExp_nonneg pow hpow l
      have h1' : cumExp pow l2 = 0 := by rw [h]; rfl
      linarith
  have := canonical_unique pow hpow l2 l t2 p S2.1 hl ht2 S2.2.1 hp hpr hsum
  rw [this.1, this.2]

/-- C8 (witness): `(l, p) = (1, 80)`, `d = 10`; the first run lands on
`(1, 90)` with no clamping and the second returns to `(1, 80)`. -/
theorem c8_round_trip_witness :
    ((1 : ℕ) ≤ 1 ∧ (0 : ℚ) ≤ 80 ∧
        (80 : ℚ) < calculateRequiredExp powStandIn 1 ∧
        0 ≤ (applyPoints powStandIn 1 80 10).2) ∧
      applyPoints powStandIn (applyPoints powStandIn 1 80 10).1
        (applyPoints powStandIn 1 80 10).2 (-10) = (1, 80) := by
  have hreq : (80 : ℚ) < calculateRequiredExp powStandIn 1 := by
    norm_num [calculateRequiredExp, powStandIn, BASE_EXP]
  have happ : applyPoints powStandIn 1 80 10 = (1, 90) := by
    have h := applyPoints_within powStandIn 1 80 10 le_rfl (by norm_num)
      (by norm_num [calculateRequiredExp, powStandIn, BASE_EXP])
    norm_num at h
    exact h
  have hnc : 0 ≤ (applyPoints powStandIn 1 80 10).2 := by
    rw [happ]
    norm_num
  exact ⟨⟨le_rfl, by norm_num, hreq, hnc⟩,
    c8_round_trip powStandIn powStandIn_one_le 1 80 10 le_rfl
      (by norm_num) hreq hnc⟩

/-! ### Claim C10 — updatePet field spread -/

/-- C10 (confirmed).  The spread loop of lines 329–333 copies every present
payload key other than `"points"` verbatim onto the pet — in particular a
`level` key is applied directly, overriding whatever the leveling
transformation computed; and when the payload carries only `points`, the
name and type fields are left unchanged (only points and level change). -/
theorem c10_field_spread (pow : ℕ → ℚ) (pet : PetDoc) (u : PetUpdate) :
    (∀ lv, u.level = some lv → (updatePet pow pet u).level = lv) ∧
      (∀ nm, u.name = some nm → (updatePet pow pet u).name = nm) ∧
      (∀ tp, u.ptype = some tp → (updatePet pow pet u).ptype = tp) ∧
      (u.name = none → u.ptype = none → u.level = none →
        (updatePet pow pet u).name = pet.name ∧
          (updatePet pow pet u).ptype = pet.ptype) := by
  refine ⟨?_, ?_, ?_, ?_⟩
  · intro lv hlv
    rcases hu : u.points with _ | d <;> simp [updatePet, hu, hlv]
  · intro nm hnm
    rcases hu : u.points with _ | d <;> simp [updatePet, hu, hnm]
  · intro tp htp
    rcases hu : u.points with _ | d <;> simp [updatePet, hu, htp]
  · intro h1 h2 h3
    rcases hu : u.points with _ | d <;>
      simp [updatePet, hu, h1, h2, h3]

/-- C10 (witness): a payload `{ level: 7, points: 100 }` sets the pet's level
to 7 verbatim, bypassing the leveling transformation. -/
theorem c10_field_spread_witness :
    (updatePet powStandIn ⟨"pet", "dog", 1, 0⟩
      ⟨none, none, some 7, some 100⟩).level = 7 :=
  (c10_field_spread powStandIn ⟨"pet", "dog", 1, 0⟩
    ⟨none, none, some 7, some 100⟩).1 7 rfl

/-! ### Tasks — `pointsMapping` and `updateTask` (taskController) -/

/-- `pointsMapping = { easy: 250, medium: 500, hard: 1000 }` (taskController
lines 4–9).  A lookup with an unmapped key reads as `undefined`, i.e.
`none`. -/
def pointsMapping (c : String) : Option ℕ :=
  if c = "easy" then some 250
  else if c = "medium" then some 500
  else if c = "hard" then some 1000
  else none

/-- The task fields `updateTask` touches (the date fields behave exactly like
`name` and are omitted). -/
structure TaskDoc where
  name : String
  status : String
  category : String
  points : ℕ
  deriving DecidableEq

/-- A `req.body` for updateTask: each field present (`some`) or absent.
An absent field, like an explicitly `undefined` one, is ignored by
`findByIdAndUpdate`. -/
structure TaskUpdate where
  name : Option String
  status : Option String
  category : Option String
  points : Option ℕ
  deriving DecidableEq

/-- `updateTask` (taskController lines 121–154) after the task has been
found: if the payload's `category` is truthy (a nonempty string) and differs
from the stored one, the code runs
`taskData.points = pointsMapping[taskData.category]` — for a recognised key
this overwrites the payload's points with the mapped value; for an
unrecognised key it sets them to `undefined` (`none`), which the subsequent
`findByIdAndUpdate` drops.  The payload is then applied field by field; no
validation rejects an unrecognised category. -/
def updateTask (t : TaskDoc) (u : TaskUpdate) : TaskDoc :=
  let u' := match u.category with
    | none => u
    | some c =>
      if c ≠ "" ∧ c ≠ t.category then { u with points := pointsMapping c }
      else u
  { name := u'.name.getD t.name
    status := u'.status.getD t.status
    category := u'.category.getD t.category
    points := u'.points.getD t.points }

/-! ### Claim C6 — category change re-derives points -/

/-- C6 (confirmed).  An update whose payload carries a recognised category
different from the task's current one sets the stored points to the mapped
value (easy→250, medium→500, hard→1000), whatever points the payload did or
did not carry. -/
theorem c6_category_rederives_points (t : TaskDoc) (u : TaskUpdate)
    (c : String) (v : ℕ) (hc : u.category = some c) (hne : c ≠ t.category)
    (hv : pointsMapping c = some v) :
    (updateTask t u).points = v := by
  have hcne : c ≠ "" := by
    intro h
    rw [h] at hv
    simp [pointsMapping] at hv
  simp [updateTask, hc, if_pos (And.intro hcne hne), hv]

/-- C6 (witness): a task created easy (points 250) updated with
`{ category: "hard" }` and no points field ends with points 1000. -/
theorem c6_category_rederives_points_witness :
    ((⟨none, none, some "hard", none⟩ : TaskUpdate).category = some "hard" ∧
        "hard" ≠ (⟨"t", "pending", "easy", 250⟩ : TaskDoc).category ∧
        pointsMapping "hard" = some 1000) ∧
      (updateTask ⟨"t", "pending", "easy", 250⟩
        ⟨none, none, some "hard", none⟩).points = 1000 := by
  refine ⟨⟨rfl, by decide, by decide⟩, ?_⟩
  exact c6_category_rederives_points ⟨"t", "pending", "easy", 250⟩
    ⟨none, none, some "hard", none⟩ "hard" 1000 rfl (by decide) (by decide)

/-! ### Claim C9 — InvalidCategory on unmapped key -/

/-- C9 (counterexample).  Updating an easy task with the unrecognised
category "extreme" does not fail with any error: the update succeeds, the
category is written verbatim, and the points stay unchanged (the `undefined`
mapping result overwrites the payload's points, so no point update occurs).
There is no `InvalidCategory` path in the source. -/
theorem c9_invalid_category_counterexample :
    updateTask ⟨"t", "pending", "easy", 250⟩
        ⟨none, none, some "extreme", none⟩ =
      ⟨"t", "pending", "extreme", 250⟩ := by
  decide

/-- C9 (amended).  For a payload category that is truthy, different from the
stored one and not a recognised key, `updateTask` succeeds: the category is
applied verbatim and the points are left unchanged — instead of the
`InvalidCategory` failure the spec describes. -/
theorem c9_invalid_category (t : TaskDoc) (u : TaskUpdate) (c : String)
    (hc : u.category = some c) (hcne : c ≠ "") (hne : c ≠ t.category)
    (hun : pointsMapping c = none) :
    (updateTask t u).points = t.points ∧ (updateTask t u).category = c := by
  constructor <;> simp [updateTask, hc, if_pos (And.intro hcne hne), hun]

/-- C9 (witness): the amended theorem on the concrete "extreme" update. -/
theorem c9_invalid_category_witness :
    ((⟨none, none, some "extreme", none⟩ : TaskUpdate).category =
          some "extreme" ∧
        "extreme" ≠ "" ∧
        "extreme" ≠ (⟨"t", "pending", "easy", 250⟩ : TaskDoc).category ∧
        pointsMapping "extreme" = none) ∧
      ((updateTask ⟨"t", "pending", "easy", 250⟩
          ⟨none, none, some "extreme", none⟩).points = 250 ∧
        (updateTask ⟨"t", "pending", "easy", 250⟩
          ⟨none, none, some "extreme", none⟩).category = "extreme") := by
  refine ⟨⟨rfl, by decide, by decide, by decide⟩, ?_⟩
  exact c9_invalid_category ⟨"t", "pending", "easy", 250⟩
    ⟨none, none, some "extreme", none⟩ "extreme" rfl (by decide) (by decide)
    (by decide)

/-! ### Claim C5 — idempotent attach -/

/-- The child-attach step of the creation handlers, as the source writes it:
`user.folders.push(folder._id)` (createFolder line 47) and
`note.tasks.push(task._id)` (createTask line 59) — an unconditional append,
with no membership check. -/
def attachChild (children : List ℕ) (childId : ℕ) : List ℕ :=
  children ++ [childId]

/-- C5 (counterexample).  Attaching id 5 to a child list that already
contains 5 yields `[5, 5]`, not the unchanged `[5]` the claim requires: the
append is unconditional. -/
theorem c5_attach_counterexample :
    attachChild [5] 5 = [5, 5] ∧ ([5, 5] : List ℕ) ≠ [5] := by
  exact ⟨rfl, by decide⟩

/-- C5 (amended).  `attachChild` always appends: when the child id is
already present, the result differs from the input and holds one more copy
of the id — a duplicate attach duplicates the entry rather than being a
no-op.  (In the source's two call sites the child is freshly created, so the
id is never already present in practice.) -/
theorem c5_attach (l : List ℕ) (c : ℕ) (_hmem : c ∈ l) :
    attachChild l c ≠ l ∧ (attachChild l c).count c = l.count c + 1 := by
  constructor
  · intro h
    have hlen := congrArg List.length h
    simp [attachChild] at hlen
  · simp [attachChild]

/-- C5 (witness): the amended theorem at the list `[5]` and id 5. -/
theorem c5_attach_witness :
    (5 ∈ ([5] : List ℕ)) ∧
      (attachChild [5] 5 ≠ [5] ∧
        (attachChild [5] 5).count 5 = ([5] : List ℕ).count 5 + 1) :=
  ⟨by decide, c5_attach [5] 5 (by decide)⟩

/-! ### The ownership store and cascading deletes

The abstract document store of the spec's §6 persistence port: one
association list per collection, ids drawn from `ℕ`.  `deleteTaskOp` is
translated from the source (deleteTask and the Task pre-`deleteOne` hook);
the Note and Folder cascades are modelled from the spec, since Folder.js and
Note.js (which carry their pre-delete hooks) are not among the repository's
files here. -/

/-- A task record: its owning note (the fields the cascade reads). -/
structure TaskRec where
  note : ℕ
  deriving DecidableEq

/-- A note record: its owning folder and its task-id list. -/
structure NoteRec where
  folder : ℕ
  tasks : List ℕ
  deriving DecidableEq

/-- A folder record: its owning user and its note-id list. -/
structure FolderRec where
  user : ℕ
  notes : List ℕ
  deriving DecidableEq

/-- A user record: its folder-id list. -/
structure UserRec where
  folders : List ℕ
  deriving DecidableEq

/-- The document store. -/
structure Store where
  users : List (ℕ × UserRec)
  folders : List (ℕ × FolderRec)
  notes : List (ℕ × NoteRec)
  tasks : List (ℕ × TaskRec)
  deriving DecidableEq

/-- `findById`: first entry with the given id, if any. -/
def lookup {α : Type} : List (ℕ × α) → ℕ → Option α
  | [], _ => none
  | p :: rest, i => if p.1 = i then some p.2 else lookup rest i

/-- Record deletion (`deleteOne`): drop every entry with the given id. -/
def removeRec {α : Type} : List (ℕ × α) → ℕ → List (ℕ × α)
  | [], _ => []
  | p :: rest, i =>
    if p.1 = i then removeRec rest i else p :: removeRec rest i

/-- `findByIdAndUpdate` with an update function: rewrite the entries with
the given id in place; a missing id updates nothing. -/
def updateRec {α : Type} : List (ℕ × α) → ℕ → (α → α) → List (ℕ × α)
  | [], _, _ => []
  | p :: rest, i, f =>
    if p.1 = i then (p.1, f p.2) :: updateRec rest i f
    else p :: updateRec rest i f

/-- `$pull`: remove every occurrence of an id from a child list; pulling an
absent id is a no-op. -/
def pull : List ℕ → ℕ → List ℕ
  | [], _ => []
  | x :: rest, i => if x = i then pull rest i else x :: pull rest i

lemma lookup_removeRec_self {α : Type} (l : List (ℕ × α)) (i : ℕ) :
    lookup (removeRec l i) i = none := by
  induction l with
  | nil => rfl
  | cons p rest ih =>
    rw [removeRec]
    split_ifs with h
    · exact ih
    · rw [lookup, if_neg h]
      exact ih

lemma lookup_removeRec_ne {α : Type} (l : List (ℕ × α)) (i j : ℕ)
    (h : j ≠ i) : lookup (removeRec l i) j = lookup l j := by
  induction l with
  | nil => rfl
  | cons p rest ih =>
    rw [removeRec]
    split_ifs with hp
    · rw [lookup, if_neg (by rw [hp]; exact fun e => h e.symm)]
      exact ih
    · rw [lookup, lookup]
      split_ifs with hj
      · rfl
      · exact ih

lemma lookup_updateRec_self {α : Type} (l : List (ℕ × α)) (i : ℕ)
    (f : α → α) : lookup (updateRec l i f) i = (lookup l i).map f := by
  induction l with
  | nil => rfl
  | cons p rest ih =>
    rw [updateRec]
    split_ifs with hp
    · rw [lookup, if_pos hp, lookup, if_pos hp]
      rfl
    · rw [lookup, if_neg hp, lookup, if_neg hp]
      exact ih

lemma lookup_updateRec_ne {α : Type} (l : List (ℕ × α)) (i j : ℕ)
    (f : α → α) (h : j ≠ i) :
    lookup (updateRec l i f) j = lookup l j := by
  induction l with
  | nil => rfl
  | cons p rest ih =>
    rw [updateRec]
    split_ifs with hp
    · rw [lookup, if_neg (by rw [hp]; exact fun e => h e.symm), lookup,
        if_neg (by rw [hp]; exact fun e => h e.symm)]
      exact ih
    · rw [lookup, lookup]
      split_ifs with hj
      · rfl
      · exact ih

lemma mem_pull (l : List ℕ) (i j : ℕ) : j ∈ pull l i ↔ j ∈ l ∧ j ≠ i := by
  induction l with
  | nil => simp [pull]
  | cons x rest ih =>
    rw [pull]
    split_ifs with hx
    · subst hx
      rw [ih]
      constructor
      · rintro ⟨hm, hne⟩
        exact ⟨List.mem_cons_of_mem x hm, hne⟩
      · rintro ⟨hm, hne⟩
        rcases List.mem_cons.mp hm with rfl | hm
        · exact absurd rfl hne
        · exact ⟨hm, hne⟩
    · constructor
      · intro hm
        rcases List.mem_cons.mp hm with rfl | hm
        · exact ⟨List.mem_cons_self j rest, hx⟩
        · obtain ⟨h1, h2⟩ := ih.mp hm
          exact ⟨List.mem_cons_of_mem x h1, h2⟩
      · rintro ⟨hm, hne⟩
        rcases List.mem_cons.mp hm with rfl | hm
        · exact List.mem_cons_self j (pull rest i)
        · exact List.mem_cons_of_mem x (ih.mpr ⟨hm, hne⟩)

lemma not_mem_pull_self (l : List ℕ) (i : ℕ) : i ∉ pull l i := by
  intro h
  exact absurd ((mem_pull l i i).mp h).2 (by simp)

lemma lookup_mem {α : Type} (l : List (ℕ × α)) (i : ℕ) (a : α)
    (h : lookup l i = some a) : (i, a) ∈ l := by
  induction l with
  | nil => exact absurd h (by simp [lookup])
  | cons p rest ih =>
    rw [lookup] at h
    split_ifs at h with hp
    · injection h with h
      have hpe : p = (i, a) := by
        rw [Prod.ext_iff]
        exact ⟨hp, h⟩
      rw [← hpe]
      exact List.mem_cons_self p rest
    · exact List.mem_cons_of_mem p (ih h)

/-- `deleteTask` (taskController lines 169–191) together with the Task
pre-`deleteOne` hook (Task.js lines 49–60): 404 (`none`) if the task does
not resolve; otherwise the hook pulls the task id from its owning note's
`tasks` array — and crashes, aborting the delete, if that note is missing
(the hook dereferences the `findByIdAndUpdate` result) — and then the task
record itself is deleted. -/
def deleteTaskOp (s : Store) (taskId : ℕ) : Option Store :=
  match lookup s.tasks taskId with
  | none => none
  | some t =>
    match lookup s.notes t.note with
    | none => none
    | some _ =>
      some { s with
        notes := updateRec s.notes t.note
          (fun n => { n with tasks := pull n.tasks taskId }),
        tasks := removeRec s.tasks taskId }

/-- `deleteSubtree(Task, ·)` folded over a task-id list, aborting on the
first failure (each persistence call is awaited before the next). -/
def deleteTasksList : List ℕ → Store → Option Store
  | [], s => some s
  | tid :: rest, s =>
    match deleteTaskOp s tid with
    | none => none
    | some s1 => deleteTasksList rest s1

/-- Modelled from the spec: `deleteSubtree(Note, ·)` (§4.4) — Note.js and
its pre-delete hook are not among the repository's files, only the spec
describes them.  For each task id in the note's list, delete that task
subtree; then delete the Note record and `detachChild(folder, noteId)` on
its owning folder (`ParentNotFound`, i.e. `none`, if the folder does not
resolve).  The record delete and the detach touch different collections, so
they are written as one simultaneous update. -/
def deleteNoteSub (s : Store) (noteId : ℕ) : Option Store :=
  match lookup s.notes noteId with
  | none => none
  | some n =>
    match deleteTasksList n.tasks s with
    | none => none
    | some s1 =>
      match lookup s1.folders n.folder with
      | none => none
      | some _ =>
        some { s1 with
          notes := removeRec s1.notes noteId,
          folders := updateRec s1.folders n.folder
            (fun f => { f with notes := pull f.notes noteId }) }

/-- `deleteSubtree(Note, ·)` folded over a note-id list, aborting on the
first failure. -/
def deleteNotesList : List ℕ → Store → Option Store
  | [], s => some s
  | nid :: rest, s =>
    match deleteNoteSub s nid with
    | none => none
    | some s1 => deleteNotesList rest s1

/-- Modelled from the spec: `deleteSubtree(Folder, ·)` (§4.4; the
deleteFolder controller, folderController.js lines 148–170, shows only the
not-found check and the `deleteOne` that fires the — absent — Folder
pre-delete hook).  For each note id in the folder's list, delete that note
subtree; then delete the Folder record and `detachChild(user, folderId)` on
its owning user. -/
def deleteFolderSub (s : Store) (folderId : ℕ) : Option Store :=
  match lookup s.folders folderId with
  | none => none
  | some f =>
    match deleteNotesList f.notes s with
    | none => none
    | some s1 =>
      match lookup s1.users f.user with
      | none => none
      | some _ =>
        some { s1 with
          folders := removeRec s1.folders folderId,
          users := updateRec s1.users f.user
            (fun u => { u with folders := pull u.folders folderId }) }

lemma deleteTaskOp_eq (s : Store) (taskId : ℕ) (s' : Store)
    (h : deleteTaskOp s taskId = some s') :
    ∃ t, lookup s.tasks taskId = some t ∧
      (∃ n, lookup s.notes t.note = some n) ∧
      s' = { s with
        notes := updateRec s.notes t.note
          (fun n => { n with tasks := pull n.tasks taskId }),
        tasks := removeRec s.tasks taskId } := by
  rw [deleteTaskOp] at h
  split at h
  · exact absurd h (by simp)
  · rename_i t ht
    split at h
    · exact absurd h (by simp)
    · rename_i n hn
      injection h with h
      exact ⟨t, ht, ⟨n, hn⟩, h.symm⟩

lemma deleteNoteSub_eq (s : Store) (noteId : ℕ) (s' : Store)
    (h : deleteNoteSub s noteId = some s') :
    ∃ n s1, lookup s.notes noteId = some n ∧
      deleteTasksList n.tasks s = some s1 ∧
      (∃ f, lookup s1.folders n.folder = some f) ∧
      s' = { s1 with
        notes := removeRec s1.notes noteId,
        folders := updateRec s1.folders n.folder
          (fun f => { f with notes := pull f.notes noteId }) } := by
  rw [deleteNoteSub] at h
  split at h
  · exact absurd h (by simp)
  · rename_i n hn
    split at h
    · exact absurd h (by simp)
    · rename_i s1 hs1
      split at h
      · exact absurd h (by simp)
      · rename_i f hf
        injection h with h
        exact ⟨n, s1, hn, hs1, ⟨f, hf⟩, h.symm⟩

lemma deleteFolderSub_eq (s : Store) (folderId : ℕ) (s' : Store)
    (h : deleteFolderSub s folderId = some s') :
    ∃ f s1, lookup s.folders folderId = some f ∧
      deleteNotesList f.notes s = some s1 ∧
      (∃ u, lookup s1.users f.user = some u) ∧
      s' = { s1 with
        folders := removeRec s1.folders folderId,
        users := updateRec s1.users f.user
          (fun u => { u with folders := pull u.folders folderId }) } := by
  rw [deleteFolderSub] at h
  split at h
  · exact absurd h (by simp)
  · rename_i f hf
    split at h
    · exact absurd h (by simp)
    · rename_i s1 hs1
      split at h
      · exact absurd h (by simp)
      · rename_i u hu
        injection h with h
        exact ⟨f, s1, hf, hs1, ⟨u, hu⟩, h.symm⟩

lemma deleteTaskOp_frame (s : Store) (taskId : ℕ) (s' : Store)
    (h : deleteTaskOp s taskId = some s') :
    s'.users = s.users ∧ s'.folders = s.folders := by
  obtain ⟨t, ht, ⟨n, hn⟩, rfl⟩ := deleteTaskOp_eq s taskId s' h
  exact ⟨rfl, rfl⟩

lemma deleteTaskOp_tasks_none (s : Store) (taskId : ℕ) (s' : Store) (j : ℕ)
    (h : deleteTaskOp s taskId = some s')
    (hj : lookup s.tasks j = none ∨ j = taskId) :
    lookup s'.tasks j = none := by
  obtain ⟨t, ht, ⟨n, hn⟩, rfl⟩ := deleteTaskOp_eq s taskId s' h
  show lookup (removeRec s.tasks taskId) j = none
  rcases eq_or_ne j taskId with he | hne
  · rw [he]
    exact lookup_removeRec_self s.tasks taskId
  · rw [lookup_removeRec_ne s.tasks taskId j hne]
    rcases hj with hj | hj
    · exact hj
    · exact absurd hj hne

lemma deleteTaskOp_notes_none (s : Store) (taskId : ℕ) (s' : Store) (j : ℕ)
    (h : deleteTaskOp s taskId = some s') (hj : lookup s.notes j = none) :
    lookup s'.notes j = none := by
  obtain ⟨t, ht, ⟨n, hn⟩, rfl⟩ := deleteTaskOp_eq s taskId s' h
  show lookup (updateRec s.notes t.note
    (fun n => { n with tasks := pull n.tasks taskId })) j = none
  rcases eq_or_ne j t.note with he | hne
  · rw [he, lookup_updateRec_self, ← he, hj]
    rfl
  · rw [lookup_updateRec_ne s.notes t.note j _ hne]
    exact hj

lemma deleteTaskOp_note_shrink (s : Store) (taskId : ℕ) (s' : Store)
    (i : ℕ) (m : NoteRec) (x : ℕ)
    (h : deleteTaskOp s taskId = some s')
    (hm : lookup s.notes i = some m) (hx : x ∈ m.tasks) :
    lookup s'.tasks x = none ∨
      ∃ m', lookup s'.notes i = some m' ∧ x ∈ m'.tasks := by
  obtain ⟨t, ht, ⟨n, hn⟩, rfl⟩ := deleteTaskOp_eq s taskId s' h
  rcases eq_or_ne x taskId with he | hxne
  · left
    show lookup (removeRec s.tasks taskId) x = none
    rw [he]
    exact lookup_removeRec_self s.tasks taskId
  · right
    rcases eq_or_ne i t.note with hie | hine
    · refine ⟨{ m with tasks := pull m.tasks taskId }, ?_, ?_⟩
      · show lookup (updateRec s.notes t.note
          (fun n => { n with tasks := pull n.tasks taskId })) i = _
        rw [hie, lookup_updateRec_self, ← hie, hm]
        rfl
      · show x ∈ pull m.tasks taskId
        exact (mem_pull m.tasks taskId x).mpr ⟨hx, hxne⟩
    · refine ⟨m, ?_, hx⟩
      show lookup (updateRec s.notes t.note
        (fun n => { n with tasks := pull n.tasks taskId })) i = some m
      rw [lookup_updateRec_ne s.notes t.note i _ hine]
      exact hm

lemma deleteTasksList_frame : ∀ (L : List ℕ) (s s' : Store),
    deleteTasksList L s = some s' →
    s'.users = s.users ∧ s'.folders = s.folders := by
  intro L
  induction L with
  | nil =>
    intro s s' h
    rw [deleteTasksList] at h
    injection h with h
    rw [← h]
    exact ⟨rfl, rfl⟩
  | cons tid rest ih =>
    intro s s' h
    rw [deleteTasksList] at h
    split at h
    · exact absurd h (by simp)
    · rename_i s1 hs1
      obtain ⟨e1, e2⟩ := deleteTaskOp_frame s tid s1 hs1
      obtain ⟨e3, e4⟩ := ih s1 s' h
      exact ⟨e3.trans e1, e4.trans e2⟩

lemma deleteTasksList_tasks_none : ∀ (L : List ℕ) (s s' : Store) (j : ℕ),
    deleteTasksList L s = some s' → lookup s.tasks j = none →
    lookup s'.tasks j = none := by
  intro L
  induction L with
  | nil =>
    intro s s' j h hj
    rw [deleteTasksList] at h
    injection h with h
    rw [← h]
    exact hj
  | cons tid rest ih =>
    intro s s' j h hj
    rw [deleteTasksList] at h
    split at h
    · exact absurd h (by simp)
    · rename_i s1 hs1
      exact ih s1 s' j h (deleteTaskOp_tasks_none s tid s1 j hs1 (Or.inl hj))

lemma deleteTasksList_notes_none : ∀ (L : List ℕ) (s s' : Store) (j : ℕ),
    deleteTasksList L s = some s' → lookup s.notes j = none →
    lookup s'.notes j = none := by
  intro L
  induction L with
  | nil =>
    intro s s' j h hj
    rw [deleteTasksList] at h
    injection h with h
    rw [← h]
    exact hj
  | cons tid rest ih =>
    intro s s' j h hj
    rw [deleteTasksList] at h
    split at h
    · exact absurd h (by simp)
    · rename_i s1 hs1
      exact ih s1 s' j h (deleteTaskOp_notes_none s tid s1 j hs1 hj)

lemma deleteTasksList_tasks_gone : ∀ (L : List ℕ) (s s' : Store),
    deleteTasksList L s = some s' → ∀ tid ∈ L,
    lookup s'.tasks tid = none := by
  intro L
  induction L with
  | nil =>
    intro s s' _ tid htid
    exact absurd htid (by simp)
  | cons t0 rest ih =>
    intro s s' h tid htid
    rw [deleteTasksList] at h
    split at h
    · exact absurd h (by simp)
    · rename_i s1 hs1
      rcases List.mem_cons.mp htid with he | hmem
      · exact deleteTasksList_tasks_none rest s1 s' tid h
          (deleteTaskOp_tasks_none s t0 s1 tid hs1 (Or.inr he))
      · exact ih s1 s' h tid hmem

lemma deleteTasksList_note_shrink : ∀ (L : List ℕ) (s s' : Store) (i : ℕ)
    (m : NoteRec) (x : ℕ),
    deleteTasksList L s = some s' → lookup s.notes i = some m →
    x ∈ m.tasks →
    lookup s'.tasks x = none ∨
      ∃ m', lookup s'.notes i = some m' ∧ x ∈ m'.tasks := by
  intro L
  induction L with
  | nil =>
    intro s s' i m x h hm hx
    rw [deleteTasksList] at h
    injection h with h
    rw [← h]
    exact Or.inr ⟨m, hm, hx⟩
  | cons t0 rest ih =>
    intro s s' i m x h hm hx
    rw [deleteTasksList] at h
    split at h
    · exact absurd h (by simp)
    · rename_i s1 hs1
      rcases deleteTaskOp_note_shrink s t0 s1 i m x hs1 hm hx with
        hnone | ⟨m', hm', hx'⟩
      · exact Or.inl (deleteTasksList_tasks_none rest s1 s' x h hnone)
      · exact ih s1 s' i m' x h hm' hx'

lemma deleteNoteSub_frame_users (s : Store) (noteId : ℕ) (s' : Store)
    (h : deleteNoteSub s noteId = some s') : s'.users = s.users := by
  obtain ⟨n, s1, hn, hs1, ⟨f, _⟩, rfl⟩ := deleteNoteSub_eq s noteId s' h
  show s1.users = s.users
  exact (deleteTasksList_frame n.tasks s s1 hs1).1

lemma deleteNoteSub_tasks_none (s : Store) (noteId : ℕ) (s' : Store) (j : ℕ)
    (h : deleteNoteSub s noteId = some s') (hj : lookup s.tasks j = none) :
    lookup s'.tasks j = none := by
  obtain ⟨n, s1, hn, hs1, ⟨f, _⟩, rfl⟩ := deleteNoteSub_eq s noteId s' h
  show lookup s1.tasks j = none
  exact deleteTasksList_tasks_none n.tasks s s1 j hs1 hj

lemma deleteNoteSub_notes_none (s : Store) (noteId : ℕ) (s' : Store) (j : ℕ)
    (h : deleteNoteSub s noteId = some s') (hj : lookup s.notes j = none) :
    lookup s'.notes j = none := by
  obtain ⟨n, s1, hn, hs1, ⟨f, _⟩, rfl⟩ := deleteNoteSub_eq s noteId s' h
  show lookup (removeRec s1.notes noteId) j = none
  rcases eq_or_ne j noteId with he | hne
  · rw [he]
    exact lookup_removeRec_self s1.notes noteId
  · rw [lookup_removeRec_ne s1.notes noteId j hne]
    exact deleteTasksList_notes_none n.tasks s s1 j hs1 hj

lemma deleteNoteSub_note_gone (s : Store) (noteId : ℕ) (s' : Store)
    (h : deleteNoteSub s noteId = some s') :
    lookup s'.notes noteId = none := by
  obtain ⟨n, s1, hn, hs1, ⟨f, _⟩, rfl⟩ := deleteNoteSub_eq s noteId s' h
  show lookup (removeRec s1.notes noteId) noteId = none
  exact lookup_removeRec_self s1.notes noteId

lemma deleteNoteSub_tasks_gone (s : Store) (noteId : ℕ) (s' : Store)
    (h : deleteNoteSub s noteId = some s') (n : NoteRec)
    (hn : lookup s.notes noteId = some n) :
    ∀ tid ∈ n.tasks, lookup s'.tasks tid = none := by
  obtain ⟨n0, s1, hn0, hs1, ⟨f, _⟩, rfl⟩ := deleteNoteSub_eq s noteId s' h
  have he := hn0.symm.trans hn
  injection he with he
  subst he
  intro tid htid
  show lookup s1.tasks tid = none
  exact deleteTasksList_tasks_gone n0.tasks s s1 hs1 tid htid

lemma deleteNoteSub_note_shrink (s : Store) (noteId : ℕ) (s' : Store)
    (i : ℕ) (m : NoteRec) (x : ℕ)
    (h : deleteNoteSub s noteId = some s')
    (hm : lookup s.notes i = some m) (hx : x ∈ m.tasks) :
    lookup s'.tasks x = none ∨
      ∃ m', lookup s'.notes i = some m' ∧ x ∈ m'.tasks := by
  obtain ⟨n, s1, hn, hs1, ⟨f, _⟩, rfl⟩ := deleteNoteSub_eq s noteId s' h
  rcases eq_or_ne i noteId with he | hine
  · left
    have hmn := (by rw [← he]; exact hm : lookup s.notes noteId = some m)
    have he2 := hn.symm.trans hmn
    injection he2 with he2
    subst he2
    show lookup s1.tasks x = none
    exact deleteTasksList_tasks_gone n.tasks s s1 hs1 x hx
  · rcases deleteTasksList_note_shrink n.tasks s s1 i m x hs1 hm hx with
      hnone | ⟨m', hm', hx'⟩
    · left
      show lookup s1.tasks x = none
      exact hnone
    · right
      refine ⟨m', ?_, hx'⟩
      show lookup (removeRec s1.notes noteId) i = some m'
      rw [lookup_removeRec_ne s1.notes noteId i hine]
      exact hm'

lemma deleteNotesList_frame_users : ∀ (L : List ℕ) (s s' : Store),
    deleteNotesList L s = some s' → s'.users = s.users := by
  intro L
  induction L with
  | nil =>
    intro s s' h
    rw [deleteNotesList] at h
    injection h with h
    rw [← h]
  | cons n0 rest ih =>
    intro s s' h
    rw [deleteNotesList] at h
    split at h
    · exact absurd h (by simp)
    · rename_i s1 hs1
      exact (ih s1 s' h).trans (deleteNoteSub_frame_users s n0 s1 hs1)

lemma deleteNotesList_tasks_none : ∀ (L : List ℕ) (s s' : Store) (j : ℕ),
    deleteNotesList L s = some s' → lookup s.tasks j = none →
    lookup s'.tasks j = none := by
  intro L
  induction L with
  | nil =>
    intro s s' j h hj
    rw [deleteNotesList] at h
    injection h with h
    rw [← h]
    exact hj
  | cons n0 rest ih =>
    intro s s' j h hj
    rw [deleteNotesList] at h
    split at h
    · exact absurd h (by simp)
    · rename_i s1 hs1
      exact ih s1 s' j h (deleteNoteSub_tasks_none s n0 s1 j hs1 hj)

lemma deleteNotesList_notes_none : ∀ (L : List ℕ) (s s' : Store) (j : ℕ),
    deleteNotesList L s = some s' → lookup s.notes j = none →
    lookup s'.notes j = none := by
  intro L
  induction L with
  | nil =>
    intro s s' j h hj
    rw [deleteNotesList] at h
    injection h with h
    rw [← h]
    exact hj
  | cons n0 rest ih =>
    intro s s' j h hj
    rw [deleteNotesList] at h
    split at h
    · exact absurd h (by simp)
    · rename_i s1 hs1
      exact ih s1 s' j h (deleteNoteSub_notes_none s n0 s1 j hs1 hj)

lemma deleteNotesList_gone : ∀ (L : List ℕ) (s s' : Store),
    deleteNotesList L s = some s' → ∀ nid ∈ L,
    lookup s'.notes nid = none ∧
      ∀ n : NoteRec, lookup s.notes nid = some n →
        ∀ tid ∈ n.tasks, lookup s'.tasks tid = none := by
  intro L
  induction L with
  | nil =>
    intro s s' _ nid hnid
    exact absurd hnid (by simp)
  | cons n0 rest ih =>
    intro s s' h nid hnid
    rw [deleteNotesList] at h
    split at h
    · exact absurd h (by simp)
    · rename_i s1 hs1
      rcases List.mem_cons.mp hnid with he | hmem
      · subst he
        constructor
        · exact deleteNotesList_notes_none rest s1 s' nid h
            (deleteNoteSub_note_gone s nid s1 hs1)
        · intro n hn tid htid
          exact deleteNotesList_tasks_none rest s1 s' tid h
            (deleteNoteSub_tasks_gone s nid s1 hs1 n hn tid htid)
      · constructor
        · exact (ih s1 s' h nid hmem).1
        · intro n hn tid htid
          rcases deleteNoteSub_note_shrink s n0 s1 nid n tid hs1 hn htid with
            hnone | ⟨m', hm', htid'⟩
          · exact deleteNotesList_tasks_none rest s1 s' tid h hnone
          · exact (ih s1 s' h nid hmem).2 m' hm' tid htid'

/-! ### Claim C3 — cascade completeness of folder deletion -/

/-- C3 (confirmed; the Note and Folder cascades are modelled from the spec,
see `deleteNoteSub` / `deleteFolderSub`).  After `deleteSubtree(Folder, F)`
succeeds on an existing folder: every note id of the folder's list no longer
resolves, every task id listed by any of those notes' records no longer
resolves, and the owning user's folder list no longer contains the folder's
id. -/
theorem c3_cascade_completeness (s : Store) (folderId : ℕ) (f : FolderRec)
    (s' : Store) (hf : lookup s.folders folderId = some f)
    (h : deleteFolderSub s folderId = some s') :
    (∀ nid ∈ f.notes, lookup s'.notes nid = none) ∧
      (∀ nid ∈ f.notes, ∀ n : NoteRec, lookup s.notes nid = some n →
        ∀ tid ∈ n.tasks, lookup s'.tasks tid = none) ∧
      (∀ u : UserRec, lookup s'.users f.user = some u →
        folderId ∉ u.folders) := by
  obtain ⟨f0, s1, hf0, hs1, ⟨u, hu⟩, rfl⟩ := deleteFolderSub_eq s folderId s' h
  have he := hf0.symm.trans hf
  injection he with he
  subst he
  refine ⟨?_, ?_, ?_⟩
  · intro nid hnid
    show lookup s1.notes nid = none
    exact (deleteNotesList_gone f0.notes s s1 hs1 nid hnid).1
  · intro nid hnid n hn tid htid
    show lookup s1.tasks tid = none
    exact (deleteNotesList_gone f0.notes s s1 hs1 nid hnid).2 n hn tid htid
  · intro u' hu'
    have : lookup (updateRec s1.users f0.user
        (fun u => { u with folders := pull u.folders folderId })) f0.user =
        some { u with folders := pull u.folders folderId } := by
      rw [lookup_updateRec_self, hu]
      rfl
    have he2 := (this.symm.trans hu')
    injection he2 with he2
    rw [← he2]
    show folderId ∉ pull u.folders folderId
    exact not_mem_pull_self u.folders folderId

/-- The store of the concrete cascade run: user 1 owns folder 2, folder 2
owns notes 3 and 4, note 3 owns tasks 10 and 11. -/
def storeC : Store :=
  ⟨[(1, ⟨[2]⟩)], [(2, ⟨1, [3, 4]⟩)],
    [(3, ⟨2, [10, 11]⟩), (4, ⟨2, []⟩)], [(10, ⟨3⟩), (11, ⟨3⟩)]⟩

/-- What `deleteFolderSub storeC 2` leaves: only user 1, with an empty
folder list. -/
def storeCAfter : Store := ⟨[(1, ⟨[]⟩)], [], [], []⟩

/-- C3 (witness): the theorem applied to the concrete cascade run above. -/
theorem c3_cascade_completeness_witness :
    (lookup storeC.folders 2 = some ⟨1, [3, 4]⟩ ∧
        deleteFolderSub storeC 2 = some storeCAfter) ∧
      ((∀ nid ∈ (⟨1, [3, 4]⟩ : FolderRec).notes,
          lookup storeCAfter.notes nid = none) ∧
        (∀ nid ∈ (⟨1, [3, 4]⟩ : FolderRec).notes, ∀ n : NoteRec,
          lookup storeC.notes nid = some n →
          ∀ tid ∈ n.tasks, lookup storeCAfter.tasks tid = none) ∧
        (∀ u : UserRec,
          lookup storeCAfter.users (⟨1, [3, 4]⟩ : FolderRec).user = some u →
          2 ∉ u.folders)) := by
  refine ⟨⟨rfl, ?_⟩, ?_⟩
  · decide
  · exact c3_cascade_completeness storeC 2 ⟨1, [3, 4]⟩ storeCAfter rfl
      (by decide)

/-! ### Claim C4 — task deletion detaches cleanly -/

/-- C4 (confirmed).  Deleting an existing task (deleteTask plus the Task
pre-`deleteOne` hook) removes the task record and pulls its id from its
owning note's task list; in a store whose note lists are consistent with the
tasks' back-references (the spec's bidirectional-consistency invariant), no
note's task list mentions the id afterwards — no dangling reference. -/
theorem c4_task_delete_detaches (s : Store) (taskId : ℕ) (t : TaskRec)
    (s' : Store) (ht : lookup s.tasks taskId = some t)
    (hbidi : ∀ p ∈ s.notes, taskId ∈ p.2.tasks → p.1 = t.note)
    (h : deleteTaskOp s taskId = some s') :
    lookup s'.tasks taskId = none ∧
      (∀ n' : NoteRec, lookup s'.notes t.note = some n' →
        taskId ∉ n'.tasks) ∧
      (∀ i : ℕ, ∀ n' : NoteRec, lookup s'.notes i = some n' →
        taskId ∉ n'.tasks) := by
  obtain ⟨t0, ht0, ⟨n, hn⟩, rfl⟩ := deleteTaskOp_eq s taskId s' h
  have he := ht0.symm.trans ht
  injection he with he
  subst he
  have hall : ∀ i : ℕ, ∀ n' : NoteRec,
      lookup (updateRec s.notes t0.note
        (fun n => { n with tasks := pull n.tasks taskId })) i = some n' →
      taskId ∉ n'.tasks := by
    intro i n' hn'
    rcases eq_or_ne i t0.note with he2 | hine
    · subst he2
      rw [lookup_updateRec_self, hn] at hn'
      injection hn' with hn'
      rw [← hn']
      show taskId ∉ pull n.tasks taskId
      exact not_mem_pull_self n.tasks taskId
    · rw [lookup_updateRec_ne s.notes t0.note i _ hine] at hn'
      intro hmem
      exact hine (hbidi (i, n') (lookup_mem s.notes i n' hn') hmem)
  refine ⟨?_, hall t0.note, hall⟩
  show lookup (removeRec s.tasks taskId) taskId = none
  exact lookup_removeRec_self s.tasks taskId

/-- The store of the concrete task-delete run: note 3 owns task 10. -/
def storeD : Store :=
  ⟨[(1, ⟨[2]⟩)], [(2, ⟨1, [3]⟩)], [(3, ⟨2, [10]⟩)], [(10, ⟨3⟩)]⟩

/-- What `deleteTaskOp storeD 10` leaves. -/
def storeDAfter : Store :=
  ⟨[(1, ⟨[2]⟩)], [(2, ⟨1, [3]⟩)], [(3, ⟨2, []⟩)], []⟩

/-- C4 (witness): the theorem applied to the concrete run above. -/
theorem c4_task_delete_detaches_witness :
    (lookup storeD.tasks 10 = some ⟨3⟩ ∧
        (∀ p ∈ storeD.notes, 10 ∈ p.2.tasks → p.1 = (⟨3⟩ : TaskRec).note) ∧
        deleteTaskOp storeD 10 = some storeDAfter) ∧
      (lookup storeDAfter.tasks 10 = none ∧
        ∀ i : ℕ, ∀ n' : NoteRec, lookup storeDAfter.notes i = some n' →
          10 ∉ n'.tasks) := by
  refine ⟨⟨rfl, by decide, by decide⟩, ?_, ?_⟩
  · exact (c4_task_delete_detaches storeD 10 ⟨3⟩ storeDAfter rfl (by decide)
      (by decide)).1
  · exact (c4_task_delete_detaches storeD 10 ⟨3⟩ storeDAfter rfl (by decide)
      (by decide)).2.2

end Todogotchi
